import Mathlib

/-
Verification of the moron.js association engine against its specification.

The development shallowly embeds the parts of the code base the claims
touch: `MoronModel.$$insert` / `$$update` / `$$patch`, the query-impl
hooks installed by `MoronModel.query` and `MoronModel.prototype.$query`,
`MoronModel.getRelation` / `$relatedQuery`, and
`MoronModelBase.$validate`.  The relation variants
(`MoronHasManyRelation` and friends) and the eager fetcher are not part
of the available sources; where a claim depends on them they are
modelled from the specification text, which is stated in the doc
comment of each such definition.

Records are embedded as association lists from field names to values,
SQL statements as structured data (a table, a set payload and a
conjunction of predicates), and fallible operations return `Except`.
-/

/-- A JSON-ish scalar value stored in a model field. -/
inductive JVal where
  | s (v : String)
  | n (v : Int)
  deriving DecidableEq, Repr

/-- The declared type of a schema property (the subset the tests use). -/
inductive JType where
  | str
  | num
  deriving DecidableEq, Repr

/-- Does a value match a declared type. -/
def typeMatches : JVal → JType → Bool
  | JVal.s _, JType.str => true
  | JVal.n _, JType.num => true
  | _, _ => false

/-- A record: an association list from field names to values.  JS objects
have unique keys; the alist embedding uses first-match lookup. -/
abbrev JRecord := List (String × JVal)

/-- Property lookup on a record (`obj[key]`): first matching key. -/
def lookupField (json : JRecord) (k : String) : Option JVal :=
  (json.find? (fun p => p.1 = k)).map (fun p => p.2)

/-- `delete obj[key]`: remove the binding of `k`. -/
def eraseKey (json : JRecord) (k : String) : JRecord :=
  json.filter (fun p => p.1 ≠ k)

/-- A where-clause predicate, kept structural rather than textual. -/
inductive WherePred where
  | eqCol (col : String) (val : Int)
  | inList (col : String) (vals : List Int)
  | isNullCol (col : String)
  | raw (s : String)
  deriving DecidableEq, Repr

/-- One value a set-clause can assign: a literal or SQL NULL. -/
inductive SetVal where
  | lit (v : Int)
  | null
  deriving DecidableEq, Repr

/-- A generated SQL statement: target table, the set payload (empty for
find / delete) and the conjunction of where-clause predicates. -/
structure Stmt where
  table : String
  setPayload : List (String × SetVal)
  wherePreds : List WherePred
  deriving DecidableEq, Repr

/-- An owner model instance reduced to its linking key (`ownerProp`). -/
structure Owner where
  key : Int
  deriving DecidableEq, Repr

/-- First-occurrence deduplication: keeps the first copy of each element,
dropping any element already seen.  `seen` accumulates emitted values. -/
def dedupFirstAux (seen : List Int) : List Int → List Int
  | [] => []
  | x :: xs =>
    if x ∈ seen then dedupFirstAux seen xs
    else x :: dedupFirstAux (x :: seen) xs

/-- Deduplicate a key list keeping first occurrences, in stable order. -/
def dedupFirst (l : List Int) : List Int :=
  dedupFirstAux [] l

/-- Modelled from the spec: the missing `MoronHasManyRelation.find`.
"HasOne/HasMany: adds `related.relatedProp IN (ownerIds)`"; "for N owner
instances requesting the same relation, exactly one query is issued for
that relation at that level, regardless of N (... the generated
`IN (...)` clause lists every owner key, deduplicated, in stable
order)".  The result is the full list of statements issued for the
batch, so batching is visible as the length of this list. -/
def hasManyFindQueries (relatedTable relatedCol : String) (callerPreds : List WherePred)
    (owners : List Owner) : List Stmt :=
  [{ table := relatedTable
     setPayload := []
     wherePreds := callerPreds ++
       [WherePred.inList (relatedTable ++ "." ++ relatedCol) (dedupFirst (owners.map Owner.key))] }]

/-- A related-table row reduced to its linking key (`relatedProp`) and a
payload distinguishing rows. -/
structure RRow where
  ownerId : Int
  payload : Int
  deriving DecidableEq, Repr

/-- Modelled from the spec: the post-fetch partition step the missing
`find` registers.  "each owner's field is independently populated by
matching key"; HasMany/ManyToMany assign the array of rows whose linking
key equals the owner's key. -/
def groupForOwner (rows : List RRow) (o : Owner) : List RRow :=
  rows.filter (fun r => r.ownerId = o.key)

/-- Modelled from the spec: HasOne cardinality — "owner's field becomes
one related instance (HasOne) ... default `null` when no match". -/
def hasOneForOwner (rows : List RRow) (o : Owner) : Option RRow :=
  (groupForOwner rows o).head?

/-- Modelled from the spec: "the raw result order returned to the caller
equals query order (concatenated, not re-grouped)" — the flat result the
caller sees is the query result unchanged. -/
def flatFindResult (rows : List RRow) : List RRow :=
  rows

/-- The CRUD-like operations issued through an owner's relation. -/
inductive MutOp where
  | update
  | patch
  | delete
  | relate
  | unrelate
  deriving DecidableEq, Repr

/-- The glossary's "scoping predicate": an owner-identity filter on the
related table's linking column, in either shape the engine generates
(`relatedProp IN (ownerId)` or `relatedProp = ownerId`). -/
def isScopingPred (relatedTable relatedCol : String) (owner : Owner) : WherePred → Bool
  | WherePred.eqCol c v => c == relatedTable ++ "." ++ relatedCol && v == owner.key
  | WherePred.inList c vs => c == relatedTable ++ "." ++ relatedCol && vs == [owner.key]
  | _ => false

/-- Modelled from the spec (§4.1, HasMany variant; statement shapes match
the unit tests in src/tests/unit/relations/MoronHasManyRelation.js): the
statement generated by each mutation issued through an owner's relation.
update/patch: `UPDATE related SET payload WHERE callerPreds AND
relatedProp IN (ownerId)`; delete: same scoping on a delete; relate:
`UPDATE related SET relatedProp = ownerId WHERE callerPreds AND id IN
(ids)`; unrelate: `UPDATE related SET relatedProp = NULL WHERE
callerPreds AND relatedProp = ownerId`. -/
def hasManyMutStmt (relatedTable relatedCol idCol : String) (owner : Owner)
    (payload : List (String × SetVal)) (callerPreds : List WherePred)
    (ids : List Int) : MutOp → Stmt
  | MutOp.update =>
    { table := relatedTable
      setPayload := payload
      wherePreds := callerPreds ++
        [WherePred.inList (relatedTable ++ "." ++ relatedCol) [owner.key]] }
  | MutOp.patch =>
    { table := relatedTable
      setPayload := payload
      wherePreds := callerPreds ++
        [WherePred.inList (relatedTable ++ "." ++ relatedCol) [owner.key]] }
  | MutOp.delete =>
    { table := relatedTable
      setPayload := []
      wherePreds := callerPreds ++
        [WherePred.inList (relatedTable ++ "." ++ relatedCol) [owner.key]] }
  | MutOp.relate =>
    { table := relatedTable
      setPayload := [(relatedCol, SetVal.lit owner.key)]
      wherePreds := callerPreds ++
        [WherePred.inList (relatedTable ++ "." ++ idCol) ids] }
  | MutOp.unrelate =>
    { table := relatedTable
      setPayload := [(relatedCol, SetVal.null)]
      wherePreds := callerPreds ++
        [WherePred.eqCol (relatedTable ++ "." ++ relatedCol) owner.key] }

/-- Scalar-or-array input/output shape of insert and relate. -/
inductive OneOrMany (α : Type) where
  | one (a : α)
  | many (l : List α)
  deriving DecidableEq, Repr

/-- Is the shape an array. -/
def OneOrMany.isMany {α : Type} : OneOrMany α → Bool
  | OneOrMany.one _ => false
  | OneOrMany.many _ => true

/-- A model instance reduced to its id property (possibly unset before
insert) and a payload distinguishing instances. -/
structure Mdl where
  mid : Option Int
  payload : Int
  deriving DecidableEq, Repr

/-- MoronModel.$$insert id backfill (src/lib/MoronModel.js lines
443-451): when the database returned a single id `l` but `n > 1` models
were inserted, the loop `for (i = n-1; i >= 0; --i) ids.unshift(lastId--)`
rebuilds the id list as the consecutive run ending at `l`; otherwise the
returned ids are used as-is. -/
def backfillIds (ids : List Int) (n : Nat) : List Int :=
  match ids with
  | [l] =>
    if 1 < n then (List.range n).map (fun (i : Nat) => l - (n : Int) + 1 + (i : Int)) else [l]
  | _ => ids

/-- `_.each(models, function (model, idx) \x7b model.$id(ids[idx]); \x7d)`
(src/lib/MoronModel.js line 453-455): the i-th model receives the i-th
id, unset when the list is too short. -/
def assignIds : List Mdl → List Int → List Mdl
  | [], _ => []
  | m :: ms, ids => { m with mid := ids.head? } :: assignIds ms ids.tail

/-- The models as they stand after MoronModel.$$inserts id assignment. -/
def dollarInsertAssigned (models : List Mdl) (dbIds : List Int) : List Mdl :=
  assignIds models (backfillIds dbIds models.length)

/-- `ensureModelArray` wraps a scalar into a one-element array
(src/lib/MoronModel.js lines 298-308, 530-536). -/
def ensureModelArray (input : OneOrMany Mdl) : List Mdl :=
  match input with
  | OneOrMany.one m => [m]
  | OneOrMany.many l => l

/-- MoronModel.$$insert (src/lib/MoronModel.js lines 429-463): the value
the post-create hook returns to the caller — `models` when the input was
an array, `models[0]` when it was a scalar — after id assignment. -/
def dollarInsertResult (input : OneOrMany Mdl) (dbIds : List Int) : OneOrMany Mdl :=
  let assigned := dollarInsertAssigned (ensureModelArray input) dbIds
  match input with
  | OneOrMany.one _ => OneOrMany.one (assigned.headD { mid := none, payload := 0 })
  | OneOrMany.many _ => OneOrMany.many assigned

/-- Modelled from the spec: the missing `MoronHasManyRelation.relate`
return value — "Returns the same scalar/array shape passed in,
independent of how many physical rows changed"; the unit test confirms
the post-hook hands back the input ids, ignoring the rows the database
reported. -/
def relateResult (input : OneOrMany Int) (dbResult : List Int) : OneOrMany Int :=
  input

/-- The tree of populated association fields a recursive HasOne eager
fetch of expression "a.^" produces: each node is a model id and its
(possibly absent) populated relation field. -/
inductive EagerTree where
  | node (id : Nat) (rel : Option EagerTree)

/-- The HasOne link data: `childOf db i` is the id the relation links
`i` to, if any (the batch for owner `i` returns zero or one row). -/
def childOf (db : List (Nat × Nat)) (i : Nat) : Option Nat :=
  (db.find? (fun p => p.1 == i)).map (fun p => p.2)

/-- Modelled from the spec (§4.3): the eager fetcher on the recursive
expression "a.^" over a HasOne relation.  Per level it issues one
batched find for the current owner; a batch returning zero rows is the
only termination condition, so the recursion is embedded with explicit
fuel — fuel-independence of the result is what "terminates without
looping" means for the embedding. -/
def fetchRec (db : List (Nat × Nat)) : Nat → Nat → EagerTree
  | 0, i => EagerTree.node i none
  | fuel + 1, i =>
    match childOf db i with
    | none => EagerTree.node i none
    | some j => EagerTree.node i (some (fetchRec db fuel j))

/-- Number of populated levels below the root. -/
def EagerTree.relDepth : EagerTree → Nat
  | EagerTree.node _ none => 0
  | EagerTree.node _ (some t) => t.relDepth + 1

/-- The deepest node of the chain. -/
def EagerTree.bottom : EagerTree → EagerTree
  | EagerTree.node i none => EagerTree.node i none
  | EagerTree.node _ (some t) => t.bottom

/-- The data of the recursive-eager test (src/unnamed/part_000, test
"a.^"): relation a links owner 1 to child 2 to grandchild 3 to 4, which
has no further link. -/
def chainDb : List (Nat × Nat) :=
  [(1, 2), (2, 3), (3, 4)]

/-- The tree the "a.^" fetch is expected to produce on `chainDb`. -/
def chainResult : EagerTree :=
  EagerTree.node 1 (some (EagerTree.node 2 (some (EagerTree.node 3
    (some (EagerTree.node 4 none))))))

/-- The message thrown by the relateImpl/unrelateImpl hooks installed by
`MoronModel.query` and `MoronModel.prototype.$query`
(src/lib/MoronModel.js lines 104-109 and 274-279). -/
def relateNoContextMsg : String := "relate makes no sense in this context"

/-- The operation hooks a query builder carries (the subset the claims
touch); fallible hooks return `Except`. -/
structure QueryImpls where
  findStmt : Stmt
  relateImpl : List Int → Except String Stmt
  unrelateImpl : Except String Stmt

/-- MoronModel.query (src/lib/MoronModel.js lines 256-280): the
class-level query builder; its relateImpl and unrelateImpl throw. -/
def classQueryImpls (tableName idCol : String) : QueryImpls :=
  { findStmt := { table := tableName, setPayload := [], wherePreds := [] }
    relateImpl := fun _ => Except.error relateNoContextMsg
    unrelateImpl := Except.error relateNoContextMsg }

/-- MoronModel.prototype.$query (src/lib/MoronModel.js lines 82-110):
the instance-level query builder; find scopes to the instance's id, and
relateImpl / unrelateImpl throw. -/
def instanceQueryImpls (tableName idCol : String) (selfId : Int) : QueryImpls :=
  { findStmt := { table := tableName, setPayload := []
                  wherePreds := [WherePred.eqCol (tableName ++ "." ++ idCol) selfId] }
    relateImpl := fun _ => Except.error relateNoContextMsg
    unrelateImpl := Except.error relateNoContextMsg }

/-- A json schema reduced to what `$validate` consults: the required
list and per-property declared types. -/
structure MSchema where
  required : List String
  properties : List (String × JType)

/-- The required-property failures tv4 reports: one error key per
required property absent from the record (external collaborator,
behaviour fixed by the unit tests in src/tests/unit/MoronModelBase.js). -/
def requiredErrors (schema : MSchema) (json : JRecord) : List String :=
  schema.required.filter (fun r => (lookupField json r).isNone)

/-- The type failures tv4 reports: one error key per present property
whose value does not match its declared type. -/
def typeErrors (schema : MSchema) (json : JRecord) : List String :=
  json.filterMap (fun p =>
    match schema.properties.find? (fun q => q.1 = p.1) with
    | some q => if typeMatches p.2 q.2 then none else some p.1
    | none => none)

/-- MoronModelBase.$validate (src/unnamed/part_001 lines 95-132): when
`options.patch` is set, `jsonSchema.required` is emptied before tv4 runs
and restored afterwards, so required-property checks are skipped; the
collected error keys are thrown as a validation error when non-empty. -/
def dollarValidate (schema : MSchema) (json : JRecord) (patch : Bool) :
    Except (List String) JRecord :=
  let effective : MSchema := { schema with required := if patch then [] else schema.required }
  let errs := requiredErrors effective json ++ typeErrors schema json
  if errs = [] then Except.ok json else Except.error errs

/-- What a $$update / $$patch call produces: the record written to the
database and the value the post-create hook returns to the caller. -/
structure WriteResult where
  written : JRecord
  returned : JRecord
  deriving DecidableEq, Repr

/-- MoronModel.$$update (src/lib/MoronModel.js lines 465-479): clones
the input, deletes the id property from the clone, writes the clone; the
post-create hook returns the original input object untouched. -/
def dollarUpdate (idProp : String) (input : JRecord) : WriteResult :=
  { written := eraseKey input idProp, returned := input }

/-- MoronModel.$$patch (src/lib/MoronModel.js lines 481-495): identical
id-stripping mechanics to $$update (the difference is patch-mode
validation, covered by `dollarValidate`). -/
def dollarPatch (idProp : String) (input : JRecord) : WriteResult :=
  { written := eraseKey input idProp, returned := input }

/-- A declared relation reduced to what lookup and find need. -/
structure RelInfo where
  relatedTable : String
  relatedCol : String
  deriving DecidableEq, Repr

/-- The unknown-relation error text of MoronModel.getRelation
(src/lib/MoronModel.js lines 349-357). -/
def unknownRelationMsg (className relName : String) : String :=
  "model class " ++ className ++ " does not have relation " ++ relName

/-- MoronModel.getRelation (src/lib/MoronModel.js lines 349-357): looks
the name up in the declared relation map and throws when absent. -/
def getRelation (className : String) (rels : List (String × RelInfo))
    (name : String) : Except String RelInfo :=
  match rels.find? (fun p => p.1 = name) with
  | some p => Except.ok p.2
  | none => Except.error (unknownRelationMsg className name)

/-- MoronModel.prototype.$relatedQuery (src/lib/MoronModel.js lines
112-141): resolves the relation synchronously, as its first step, before
any query handle is built; on success the handle's find statement is the
relation's batched find for this one owner. -/
def relatedQuery (className : String) (rels : List (String × RelInfo))
    (name : String) (self : Owner) : Except String Stmt :=
  match getRelation className rels name with
  | Except.error e => Except.error e
  | Except.ok r =>
    Except.ok { table := r.relatedTable
                setPayload := []
                wherePreds := [WherePred.inList (r.relatedTable ++ "." ++ r.relatedCol)
                  (dedupFirst [self.key])] }

/-- Modelled from the spec (§4.3 step 3, loadRelated): the statements
the eager fetcher executes for one relation branch — it looks the
relation up on the model class first and executes nothing for the branch
when the lookup fails. -/
def branchQueries (className : String) (rels : List (String × RelInfo))
    (name : String) (owners : List Owner) : List Stmt :=
  match getRelation className rels name with
  | Except.error _ => []
  | Except.ok r => hasManyFindQueries r.relatedTable r.relatedCol [] owners

/-- Concrete inputs used by the witnesses, mirroring the unit tests. -/
def cTable : String := "RelatedModel"

/-- The linking column of the test relation. -/
def cOwnerCol : String := "ownerId"

/-- The related id column of the test relation. -/
def cIdCol : String := "id"

/-- The owner class name of the test relation. -/
def cClassName : String := "OwnerModel"

/-- The test relation's name. -/
def cRelName : String := "nameOfOurRelation"

/-- An owner batch with a duplicated key. -/
def cOwners : List Owner := [{ key := 666 }, { key := 667 }, { key := 666 }]

/-- The single owner of the mutation tests. -/
def cOwner : Owner := { key := 666 }

/-- The four related rows of the grouping-correctness example. -/
def cRows : List RRow :=
  [{ ownerId := 1, payload := 1 }, { ownerId := 1, payload := 2 },
   { ownerId := 2, payload := 3 }, { ownerId := 2, payload := 4 }]

/-- The owner pair of the grouping-correctness example. -/
def cOwners12 : List Owner := [{ key := 1 }, { key := 2 }]

/-- A caller-attached predicate. -/
def cPreds : List WherePred := [WherePred.eqCol ("code") 55]

/-- The schema of the patch-validation test: property b required. -/
def cSchema : MSchema :=
  { required := [("b")], properties := [(("a"), JType.str), (("b"), JType.str)] }

/-- A record missing the required property b. -/
def cJson : JRecord := [(("a"), JVal.s ("str1"))]

/-- The declared relation map of the test owner class. -/
def cRels : List (String × RelInfo) :=
  [((cRelName), { relatedTable := cTable, relatedCol := cOwnerCol })]

/-- Three models awaiting inserted ids. -/
def cModels : List Mdl :=
  [{ mid := none, payload := 1 }, { mid := none, payload := 2 },
   { mid := none, payload := 3 }]

/-- An update record still carrying its id property. -/
def cUpdateRec : JRecord := [(("id"), JVal.n 5), (("a"), JVal.s ("str1"))]

/-- The required field of the patch-validation test. -/
def cFieldB : String := "b"

/-- A non-id field of the update record. -/
def cFieldA : String := "a"

/-- A set payload for the mutation witnesses. -/
def cPayload : List (String × SetVal) := [(("a"), SetVal.lit 1)]

/-- A relation name not declared on the test owner class. -/
def cMissingRel : String := "undeclaredRelation"

theorem mem_dedupFirstAux (a : Int) :
    ∀ (l seen : List Int), a ∈ dedupFirstAux seen l ↔ a ∈ l ∧ a ∉ seen := by
  intro l
  induction l with
  | nil => intro seen; simp [dedupFirstAux]
  | cons x xs ih =>
    intro seen
    by_cases hx : x ∈ seen
    · simp only [dedupFirstAux, if_pos hx, ih, List.mem_cons]
      constructor
      · rintro ⟨h1, h2⟩
        exact ⟨Or.inr h1, h2⟩
      · rintro ⟨h1 | h1, h2⟩
        · exact absurd (h1 ▸ hx) h2
        · exact ⟨h1, h2⟩
    · simp only [dedupFirstAux, if_neg hx, List.mem_cons, ih]
      by_cases hax : a = x
      · subst hax
        simp [hx]
      · simp [hax, List.mem_cons]

theorem dedupFirstAux_sublist : ∀ (l seen : List Int), (dedupFirstAux seen l).Sublist l := by
  intro l
  induction l with
  | nil => intro seen; simp [dedupFirstAux]
  | cons x xs ih =>
    intro seen
    by_cases hx : x ∈ seen
    · simp only [dedupFirstAux, if_pos hx]
      exact (ih seen).cons x
    · simp only [dedupFirstAux, if_neg hx]
      exact (ih (x :: seen)).cons₂ x

theorem dedupFirstAux_nodup : ∀ (l seen : List Int), (dedupFirstAux seen l).Nodup := by
  intro l
  induction l with
  | nil => intro seen; simp [dedupFirstAux]
  | cons x xs ih =>
    intro seen
    by_cases hx : x ∈ seen
    · simp only [dedupFirstAux, if_pos hx]
      exact ih seen
    · simp only [dedupFirstAux, if_neg hx]
      refine List.nodup_cons.mpr ⟨?_, ih (x :: seen)⟩
      intro hmem
      rcases (mem_dedupFirstAux x xs (x :: seen)).mp hmem with ⟨-, h2⟩
      exact h2 (List.mem_cons_self x seen)

/-- C1: for every batched find over N ≥ 1 owners requesting the same
relation, exactly one query is executed, and its IN clause lists every
owner's linking key, deduplicated, in stable (first-occurrence) order —
the key list is duplicate-free and a sublist of the owners' keys in
batch order. -/
theorem find_batches_single_query (relatedTable relatedCol : String)
    (callerPreds : List WherePred) (owners : List Owner) (hN : owners ≠ []) :
    (hasManyFindQueries relatedTable relatedCol callerPreds owners).length = 1 ∧
    (∀ q ∈ hasManyFindQueries relatedTable relatedCol callerPreds owners,
      WherePred.inList (relatedTable ++ "." ++ relatedCol)
        (dedupFirst (owners.map Owner.key)) ∈ q.wherePreds) ∧
    (∀ o ∈ owners, o.key ∈ dedupFirst (owners.map Owner.key)) ∧
    (dedupFirst (owners.map Owner.key)).Nodup ∧
    (dedupFirst (owners.map Owner.key)).Sublist (owners.map Owner.key) := by
  refine ⟨rfl, ?_, ?_, dedupFirstAux_nodup _ _, dedupFirstAux_sublist _ _⟩
  · intro q hq
    simp only [hasManyFindQueries, List.mem_singleton] at hq
    subst hq
    simp
  · intro o ho
    exact (mem_dedupFirstAux _ _ _).mpr ⟨List.mem_map_of_mem _ ho, by simp⟩

/-- C1 witness: the batch of the "find for multiple owners" unit test,
with a duplicated key added. -/
theorem find_batches_single_query_witness :
    cOwners ≠ [] ∧
    ((hasManyFindQueries cTable cOwnerCol cPreds cOwners).length = 1 ∧
    (∀ q ∈ hasManyFindQueries cTable cOwnerCol cPreds cOwners,
      WherePred.inList (cTable ++ "." ++ cOwnerCol)
        (dedupFirst (cOwners.map Owner.key)) ∈ q.wherePreds) ∧
    (∀ o ∈ cOwners, o.key ∈ dedupFirst (cOwners.map Owner.key)) ∧
    (dedupFirst (cOwners.map Owner.key)).Nodup ∧
    (dedupFirst (cOwners.map Owner.key)).Sublist (cOwners.map Owner.key)) :=
  ⟨by decide, find_batches_single_query cTable cOwnerCol cPreds cOwners (by decide)⟩

/-- C2: for every batched find, each owner's association field receives
exactly the related rows whose linking key equals that owner's key (in
query order), the flat result returned to the caller is the full row set
in query order, and an owner with no matching row gets the empty array
(HasMany) or null (HasOne). -/
theorem find_grouping_correct (owners : List Owner) (rows : List RRow)
    (o : Owner) (ho : o ∈ owners) :
    flatFindResult rows = rows ∧
    (∀ r, r ∈ groupForOwner rows o ↔ r ∈ rows ∧ r.ownerId = o.key) ∧
    (groupForOwner rows o).Sublist rows ∧
    ((∀ r ∈ rows, ¬ r.ownerId = o.key) →
      groupForOwner rows o = [] ∧ hasOneForOwner rows o = none) := by
  refine ⟨rfl, ?_, List.filter_sublist _, ?_⟩
  · intro r
    simp [groupForOwner]
  · intro h
    have hempty : groupForOwner rows o = [] := by
      simp only [groupForOwner, List.filter_eq_nil]
      intro r hr
      simpa using h r hr
    exact ⟨hempty, by simp [hasOneForOwner, hempty]⟩

/-- C2 witness: the grouping-correctness example of the spec — owners
with keys 1 and 2, two related rows each. -/
theorem find_grouping_correct_witness :
    ({ key := 1 } : Owner) ∈ cOwners12 ∧
    (flatFindResult cRows = cRows ∧
    (∀ r, r ∈ groupForOwner cRows { key := 1 } ↔
      r ∈ cRows ∧ r.ownerId = ({ key := 1 } : Owner).key) ∧
    (groupForOwner cRows { key := 1 }).Sublist cRows ∧
    ((∀ r ∈ cRows, ¬ r.ownerId = ({ key := 1 } : Owner).key) →
      groupForOwner cRows { key := 1 } = [] ∧
      hasOneForOwner cRows { key := 1 } = none)) :=
  ⟨by decide, find_grouping_correct cOwners12 cRows { key := 1 } (by decide)⟩

/-- C3 counterexample: a relate issued through the owner with key 666,
with a caller predicate attached — the generated statement
`UPDATE RelatedModel SET ownerId = 666 WHERE code = 55 AND
RelatedModel.id IN (10, 20, 30)` carries no owner-scoping predicate in
its where clause. -/
theorem scoped_mutation_counterexample :
    ((hasManyMutStmt cTable cOwnerCol cIdCol cOwner cPayload cPreds
        [10, 20, 30] MutOp.relate).wherePreds.any
      (fun p => isScopingPred cTable cOwnerCol cOwner p)) = false ∧
    (hasManyMutStmt cTable cOwnerCol cIdCol cOwner cPayload cPreds
        [10, 20, 30] MutOp.relate).wherePreds =
      [WherePred.eqCol ("code") 55,
       WherePred.inList (cTable ++ "." ++ cIdCol) [10, 20, 30]] := by
  decide

/-- C3 amended: for update, patch, delete and unrelate the generated
statement contains an owner-scoping predicate conjoined with every
caller predicate; for relate the caller predicates stay in force but the
owner's key enters the statement as the SET payload
(`relatedProp = ownerId`), the where clause scoping only by the given id
list. -/
theorem scoped_mutation_amended (relatedTable relatedCol idCol : String)
    (owner : Owner) (payload : List (String × SetVal))
    (callerPreds : List WherePred) (ids : List Int)
    (op : MutOp) (hop : op ≠ MutOp.relate) :
    ((hasManyMutStmt relatedTable relatedCol idCol owner payload callerPreds
        ids op).wherePreds.any
      (fun p => isScopingPred relatedTable relatedCol owner p) = true) ∧
    (∀ p ∈ callerPreds,
      p ∈ (hasManyMutStmt relatedTable relatedCol idCol owner payload
        callerPreds ids op).wherePreds) ∧
    ((relatedCol, SetVal.lit owner.key) ∈
      (hasManyMutStmt relatedTable relatedCol idCol owner payload callerPreds
        ids MutOp.relate).setPayload) ∧
    (∀ p ∈ callerPreds,
      p ∈ (hasManyMutStmt relatedTable relatedCol idCol owner payload
        callerPreds ids MutOp.relate).wherePreds) := by
  refine ⟨?_, ?_, by simp [hasManyMutStmt], ?_⟩
  · cases op with
    | relate => exact absurd rfl hop
    | update => simp [hasManyMutStmt, isScopingPred]
    | patch => simp [hasManyMutStmt, isScopingPred]
    | delete => simp [hasManyMutStmt, isScopingPred]
    | unrelate => simp [hasManyMutStmt, isScopingPred]
  · intro p hp
    cases op <;> simp [hasManyMutStmt] <;> exact Or.inl hp
  · intro p hp
    simp only [hasManyMutStmt, List.mem_append]
    exact Or.inl hp

/-- C3 amended witness: the update of the mutation unit test. -/
theorem scoped_mutation_amended_witness :
    (MutOp.update ≠ MutOp.relate) ∧
    (((hasManyMutStmt cTable cOwnerCol cIdCol cOwner cPayload cPreds
        [10, 20, 30] MutOp.update).wherePreds.any
      (fun p => isScopingPred cTable cOwnerCol cOwner p) = true) ∧
    (∀ p ∈ cPreds,
      p ∈ (hasManyMutStmt cTable cOwnerCol cIdCol cOwner cPayload
        cPreds [10, 20, 30] MutOp.update).wherePreds) ∧
    (((cOwnerCol : String), SetVal.lit cOwner.key) ∈
      (hasManyMutStmt cTable cOwnerCol cIdCol cOwner cPayload cPreds
        [10, 20, 30] MutOp.relate).setPayload) ∧
    (∀ p ∈ cPreds,
      p ∈ (hasManyMutStmt cTable cOwnerCol cIdCol cOwner cPayload
        cPreds [10, 20, 30] MutOp.relate).wherePreds)) :=
  ⟨by decide,
   scoped_mutation_amended cTable cOwnerCol cIdCol cOwner cPayload cPreds
     [10, 20, 30] MutOp.update (by decide)⟩

theorem assignIds_length (ms : List Mdl) : ∀ ids : List Int,
    (assignIds ms ids).length = ms.length := by
  induction ms with
  | nil => intro ids; rfl
  | cons m ms ih => intro ids; simp [assignIds, ih]

/-- C4: insert and relate performed through a relation return a scalar
when the input was a scalar and an array when it was an array, whatever
id list or row set the database reports; the array case keeps one
returned model per input model. -/
theorem insert_relate_shape (input : OneOrMany Mdl) (dbIds : List Int)
    (rids : OneOrMany Int) (dbRes : List Int) :
    (dollarInsertResult input dbIds).isMany = input.isMany ∧
    (dollarInsertAssigned (ensureModelArray input) dbIds).length
      = (ensureModelArray input).length ∧
    relateResult rids dbRes = rids ∧
    (relateResult rids dbRes).isMany = rids.isMany := by
  refine ⟨?_, assignIds_length _ _, rfl, rfl⟩
  cases input <;> rfl

/-- C5: the recursive eager fetch of "a.^" over data chaining owner 1 to
child 2 to grandchild 3 to 4, with no further link, yields the same tree
under every fuel budget of at least 4 (it terminates rather than
looping): exactly 3 levels below the root are populated and the
association field of the deepest node stays absent. -/
theorem recursive_fetch_terminates (f : Nat) :
    fetchRec chainDb (f + 4) 1 = chainResult ∧
    chainResult.relDepth = 3 ∧
    chainResult.bottom = EagerTree.node 4 none :=
  ⟨rfl, rfl, rfl⟩

/-- C6: the relate and unrelate hooks installed by the class-level
`MoronModel.query` and the instance-level `$query` raise the
relate-makes-no-sense error for every input instead of silently
performing no operation. -/
theorem relate_without_context_errors (tableName idCol : String)
    (selfId : Int) (ids : List Int) :
    (classQueryImpls tableName idCol).relateImpl ids
      = Except.error relateNoContextMsg ∧
    (classQueryImpls tableName idCol).unrelateImpl
      = Except.error relateNoContextMsg ∧
    (instanceQueryImpls tableName idCol selfId).relateImpl ids
      = Except.error relateNoContextMsg ∧
    (instanceQueryImpls tableName idCol selfId).unrelateImpl
      = Except.error relateNoContextMsg :=
  ⟨rfl, rfl, rfl, rfl⟩

/-- C7: a record validated as a patch may omit fields the schema lists
as required, while the same record validated as a full update fails with
an error naming the missing required field. -/
theorem patch_skips_required (schema : MSchema) (json : JRecord) (f : String)
    (hreq : f ∈ schema.required) (hmiss : lookupField json f = none)
    (htype : typeErrors schema json = []) :
    dollarValidate schema json true = Except.ok json ∧
    ∃ errs, dollarValidate schema json false = Except.error errs ∧ f ∈ errs := by
  have hfe : f ∈ requiredErrors schema json := by
    simp only [requiredErrors, List.mem_filter]
    exact ⟨hreq, by simp [hmiss]⟩
  constructor
  · simp [dollarValidate, requiredErrors, htype]
  · refine ⟨requiredErrors schema json ++ typeErrors schema json, ?_,
      List.mem_append_left _ hfe⟩
    have hne : requiredErrors schema json ++ typeErrors schema json ≠ [] := by
      intro h
      exact absurd (h ▸ List.mem_append_left (typeErrors schema json) hfe)
        (List.not_mem_nil f)
    simp [dollarValidate, hne]

/-- C7 witness: the patch-validation unit test — schema requiring b,
record carrying only a well-typed a. -/
theorem patch_skips_required_witness :
    cFieldB ∈ cSchema.required ∧ lookupField cJson cFieldB = none ∧
    typeErrors cSchema cJson = [] ∧
    (dollarValidate cSchema cJson true = Except.ok cJson ∧
    ∃ errs, dollarValidate cSchema cJson false = Except.error errs ∧
      cFieldB ∈ errs) :=
  ⟨by decide, by decide, by decide,
   patch_skips_required cSchema cJson cFieldB (by decide) (by decide) (by decide)⟩

theorem lookupField_cons (p : String × JVal) (ps : JRecord) (k : String) :
    lookupField (p :: ps) k = if p.1 = k then some p.2 else lookupField ps k := by
  by_cases h : p.1 = k
  · rw [lookupField, List.find?_cons_of_pos _ (by simp [h]), if_pos h]
    rfl
  · rw [lookupField, List.find?_cons_of_neg _ (by simp [h]), if_neg h]
    rfl

theorem eraseKey_cons (p : String × JVal) (ps : JRecord) (k : String) :
    eraseKey (p :: ps) k
      = if p.1 = k then eraseKey ps k else p :: eraseKey ps k := by
  by_cases h : p.1 = k <;> simp [eraseKey, List.filter_cons, h]

theorem lookupField_eraseKey_self (k : String) :
    ∀ j : JRecord, lookupField (eraseKey j k) k = none := by
  intro j
  induction j with
  | nil => rfl
  | cons p ps ih =>
    rw [eraseKey_cons]
    by_cases hp : p.1 = k
    · rw [if_pos hp]
      exact ih
    · rw [if_neg hp, lookupField_cons, if_neg hp]
      exact ih

theorem lookupField_eraseKey_ne (k k0 : String) (hk : k ≠ k0) :
    ∀ j : JRecord, lookupField (eraseKey j k0) k = lookupField j k := by
  intro j
  induction j with
  | nil => rfl
  | cons p ps ih =>
    rw [eraseKey_cons, lookupField_cons]
    by_cases hp : p.1 = k0
    · have hpk : ¬ p.1 = k := fun h => hk (h ▸ hp ▸ rfl)
      rw [if_pos hp, if_neg hpk]
      exact ih
    · rw [if_neg hp, lookupField_cons]
      by_cases hpk : p.1 = k
      · rw [if_pos hpk, if_pos hpk]
      · rw [if_neg hpk, if_neg hpk]
        exact ih

/-- C8: $$update and $$patch both strip the id property from the record
written to the database — every other field is written unchanged — while
the caller's input object, which the post hook hands back, keeps its id
field. -/
theorem update_patch_strip_id (idProp : String) (input : JRecord)
    (k : String) (hk : k ≠ idProp) :
    lookupField (dollarUpdate idProp input).written idProp = none ∧
    lookupField (dollarPatch idProp input).written idProp = none ∧
    lookupField (dollarUpdate idProp input).written k = lookupField input k ∧
    lookupField (dollarPatch idProp input).written k = lookupField input k ∧
    (dollarUpdate idProp input).returned = input ∧
    (dollarPatch idProp input).returned = input :=
  ⟨lookupField_eraseKey_self idProp input,
   lookupField_eraseKey_self idProp input,
   lookupField_eraseKey_ne k idProp hk input,
   lookupField_eraseKey_ne k idProp hk input,
   rfl, rfl⟩

/-- C8 witness: an update record carrying id 5 and field a. -/
theorem update_patch_strip_id_witness :
    cFieldA ≠ cIdCol ∧
    (lookupField (dollarUpdate cIdCol cUpdateRec).written cIdCol = none ∧
    lookupField (dollarPatch cIdCol cUpdateRec).written cIdCol = none ∧
    lookupField (dollarUpdate cIdCol cUpdateRec).written cFieldA
      = lookupField cUpdateRec cFieldA ∧
    lookupField (dollarPatch cIdCol cUpdateRec).written cFieldA
      = lookupField cUpdateRec cFieldA ∧
    (dollarUpdate cIdCol cUpdateRec).returned = cUpdateRec ∧
    (dollarPatch cIdCol cUpdateRec).returned = cUpdateRec) :=
  ⟨by decide, update_patch_strip_id cIdCol cUpdateRec cFieldA (by decide)⟩

/-- C9: naming a relation not declared on the model class makes
$relatedQuery fail synchronously with the unknown-relation error, and
the eager fetch executes no query for that branch. -/
theorem unknown_relation_errors (className : String)
    (rels : List (String × RelInfo)) (name : String) (self : Owner)
    (owners : List Owner)
    (habs : rels.find? (fun p => p.1 = name) = none) :
    relatedQuery className rels name self
      = Except.error (unknownRelationMsg className name) ∧
    branchQueries className rels name owners = [] := by
  constructor
  · rw [relatedQuery, getRelation, habs]
  · rw [branchQueries, getRelation, habs]

/-- C9 witness: the test owner class, which declares only
nameOfOurRelation, asked for an undeclared relation. -/
theorem unknown_relation_errors_witness :
    cRels.find? (fun p => p.1 = cMissingRel) = none ∧
    (relatedQuery cClassName cRels cMissingRel cOwner
      = Except.error (unknownRelationMsg cClassName cMissingRel) ∧
    branchQueries cClassName cRels cMissingRel cOwners = []) :=
  ⟨by decide,
   unknown_relation_errors cClassName cRels cMissingRel cOwner cOwners
     (by decide)⟩

theorem assignIds_get? (ms : List Mdl) : ∀ (ids : List Int) (i : Nat),
    (assignIds ms ids).get? i
      = (ms.get? i).map (fun m => { m with mid := ids.get? i }) := by
  induction ms with
  | nil => intro ids i; simp [assignIds]
  | cons m ms ih =>
    intro ids i
    cases i with
    | zero => cases ids <;> simp [assignIds]
    | succ n =>
      cases ids with
      | nil => simpa [assignIds] using ih [] n
      | cons a as => simpa [assignIds] using ih as n

theorem backfillIds_of_length (ids : List Int) (n : Nat)
    (h : ids.length = n) : backfillIds ids n = ids := by
  match ids with
  | [] => rfl
  | [l] =>
    simp only [List.length_singleton] at h
    simp [backfillIds, ← h]
  | a :: b :: rest => rfl

/-- C10: when $$insert inserts N > 1 models and the database returns the
single id L, the i-th model is assigned id L - N + 1 + i (the
consecutive run ending at L, in input order); when the database returns
one id per model, the i-th model receives the i-th returned id. -/
theorem insert_backfills_consecutive_ids (models : List Mdl) (l : Int)
    (i : Nat) (dbIds : List Int) (hn : 1 < models.length)
    (hi : i < models.length) (hlen : dbIds.length = models.length) :
    ((dollarInsertAssigned models [l]).get? i).map Mdl.mid
      = some (some (l - (models.length : Int) + 1 + (i : Int))) ∧
    ((dollarInsertAssigned models dbIds).get? i).map Mdl.mid
      = some (dbIds.get? i) := by
  have hback : (backfillIds [l] models.length).get? i
      = some (l - (models.length : Int) + 1 + (i : Int)) := by
    rw [backfillIds]
    rw [if_pos hn, List.get?_map, List.get?_range hi]
    rfl
  constructor
  · rw [dollarInsertAssigned, assignIds_get?, List.get?_eq_get hi, hback]
    rfl
  · rw [dollarInsertAssigned, backfillIds_of_length dbIds models.length hlen,
      assignIds_get?, List.get?_eq_get hi]
    rfl

/-- C10 witness: three models, one returned id 7 (backfill yields
5, 6, 7) and a full id list 4, 5, 6. -/
theorem insert_backfills_consecutive_ids_witness :
    1 < cModels.length ∧ 1 < cModels.length ∧
    ([4, 5, 6] : List Int).length = cModels.length ∧
    (((dollarInsertAssigned cModels [7]).get? 1).map Mdl.mid
      = some (some (7 - (cModels.length : Int) + 1 + (1 : Int))) ∧
    ((dollarInsertAssigned cModels [4, 5, 6]).get? 1).map Mdl.mid
      = some (([4, 5, 6] : List Int).get? 1)) :=
  ⟨by decide, by decide, by decide,
   insert_backfills_consecutive_ids cModels 7 1 [4, 5, 6] (by decide)
     (by decide) (by decide)⟩
